import Mathlib

/-!
Verification of the analytics aggregation module of the InterviewAI
repository (`backend/controllers/analytics.js`).

The JavaScript functions are shallowly embedded below.  JavaScript numbers
are idealised as exact rationals extended with the special values `NaN`,
`Infinity` and `-Infinity` (type `JNum`); the arithmetic operators follow
the ECMAScript rules for those special values, and `Array.prototype.slice`
is modelled by `jsSlice` with the ECMAScript index normalisation.

Only `consistency` needs real-number arithmetic (the code takes a square
root); that field, and only that field, lives in `ℝ`.
-/

/-- A JavaScript number: an exact rational, or one of the IEEE special
values `NaN`, `Infinity`, `-Infinity` produced by degenerate divisions. -/
inductive JNum where
  | num (q : ℚ)
  | nan
  | inf
  | ninf
deriving DecidableEq, Repr

namespace JNum

/-- JavaScript subtraction on extended numbers. -/
def jsub : JNum → JNum → JNum
  | num a, num b => num (a - b)
  | nan, _ => nan
  | _, nan => nan
  | inf, inf => nan
  | inf, _ => inf
  | ninf, ninf => nan
  | ninf, _ => ninf
  | num _, inf => ninf
  | num _, ninf => inf

/-- JavaScript multiplication on extended numbers. -/
def jmul : JNum → JNum → JNum
  | num a, num b => num (a * b)
  | nan, _ => nan
  | _, nan => nan
  | inf, inf => inf
  | inf, ninf => ninf
  | ninf, inf => ninf
  | ninf, ninf => inf
  | inf, num b => if b = 0 then nan else if 0 < b then inf else ninf
  | num a, inf => if a = 0 then nan else if 0 < a then inf else ninf
  | ninf, num b => if b = 0 then nan else if 0 < b then ninf else inf
  | num a, ninf => if a = 0 then nan else if 0 < a then ninf else inf

/-- JavaScript division on extended numbers: `0/0 = NaN`, `q/0 = ±Infinity`
for `q ≠ 0`, finite value divided by an infinity is `0`. -/
def jdiv : JNum → JNum → JNum
  | num a, num b =>
      if b = 0 then (if a = 0 then nan else if 0 < a then inf else ninf)
      else num (a / b)
  | nan, _ => nan
  | _, nan => nan
  | inf, inf => nan
  | inf, ninf => nan
  | ninf, inf => nan
  | ninf, ninf => nan
  | inf, num b => if 0 ≤ b then inf else ninf
  | ninf, num b => if 0 ≤ b then ninf else inf
  | num _, inf => num 0
  | num _, ninf => num 0

/-- `Math.round`: round half towards positive infinity; fixed on the
special values. -/
def jround : JNum → JNum
  | num q => num ((⌊q + 1/2⌋ : ℤ) : ℚ)
  | nan => nan
  | inf => inf
  | ninf => ninf

/-- JavaScript strict `<` as a boolean: any comparison involving `NaN`
is false. -/
def jltB : JNum → JNum → Bool
  | num a, num b => decide (a < b)
  | nan, _ => false
  | _, nan => false
  | inf, _ => false
  | ninf, ninf => false
  | ninf, _ => true
  | num _, inf => true
  | num _, ninf => false

/-- JavaScript strict `>` as a boolean. -/
def jgtB (a b : JNum) : Bool := jltB b a

theorem jdiv_num_num {a b : ℚ} (hb : b ≠ 0) :
    jdiv (num a) (num b) = num (a / b) := by
  simp [jdiv, hb]

theorem jsub_num_num (a b : ℚ) : jsub (num a) (num b) = num (a - b) := rfl

theorem jmul_num_num (a b : ℚ) : jmul (num a) (num b) = num (a * b) := rfl

theorem jround_num (q : ℚ) : jround (num q) = num ((⌊q + 1/2⌋ : ℤ) : ℚ) := rfl

theorem jgtB_num_num (a b : ℚ) : jgtB (num a) (num b) = decide (b < a) := rfl

theorem jltB_num_num (a b : ℚ) : jltB (num a) (num b) = decide (a < b) := rfl

end JNum

/-- ECMAScript index normalisation for `Array.prototype.slice`: a negative
index counts from the end of the array (clamped below by 0), a non-negative
index is clamped above by the length. -/
def jsIndex (len : ℕ) (i : ℤ) : ℕ :=
  if i < 0 then ((len : ℤ) + i).toNat else min i.toNat len

/-- `l.slice(s, e)` of ECMAScript: the elements whose (normalised) index `k`
satisfies `jsIndex len s ≤ k < jsIndex len e`.  The one-argument form
`l.slice(s)` is `jsSlice l s l.length`. -/
def jsSlice (l : List α) (s e : ℤ) : List α :=
  (l.take (jsIndex l.length e)).drop (jsIndex l.length s)

theorem jsIndex_ofNat (len k : ℕ) : jsIndex len (k : ℤ) = min k len := by
  simp [jsIndex]

theorem jsIndex_neg (len n : ℕ) (h0 : 0 < n) :
    jsIndex len (-(n : ℤ)) = len - n := by
  simp only [jsIndex]
  rw [if_pos (by omega)]
  omega

theorem jsIndex_zero (len : ℕ) : jsIndex len 0 = 0 := by
  simp [jsIndex]

theorem jsSlice_zero_take (l : List α) (k : ℕ) (h : k ≤ l.length) :
    jsSlice l 0 (k : ℤ) = l.take k := by
  have he : jsIndex l.length (k : ℤ) = k := by rw [jsIndex_ofNat]; omega
  rw [jsSlice, he, jsIndex_zero, List.drop_zero]

theorem jsSlice_drop (l : List α) (k : ℕ) (h : k ≤ l.length) :
    jsSlice l (k : ℤ) (l.length : ℤ) = l.drop k := by
  have he : jsIndex l.length (l.length : ℤ) = l.length := by
    rw [jsIndex_ofNat]; omega
  have hs : jsIndex l.length (k : ℤ) = k := by rw [jsIndex_ofNat]; omega
  rw [jsSlice, he, hs, List.take_length]

theorem jsSlice_neg_suffix (l : List α) (n : ℕ) (h0 : 0 < n) :
    jsSlice l (-(n : ℤ)) (l.length : ℤ) = l.drop (l.length - n) := by
  have he : jsIndex l.length (l.length : ℤ) = l.length := by
    rw [jsIndex_ofNat]; omega
  rw [jsSlice, he, jsIndex_neg _ _ h0, List.take_length]

theorem jsSlice_neg_window (l : List α) (n : ℕ) (h0 : 0 < n)
    (h : 2 * n ≤ l.length) :
    jsSlice l (-(2 * n : ℤ)) (-(n : ℤ)) =
      (l.drop (l.length - 2 * n)).take n := by
  have h2 : (-(2 * n : ℤ)) = (-((2 * n : ℕ) : ℤ)) := by push_cast; ring
  have hs : jsIndex l.length (-((2 * n : ℕ) : ℤ)) = l.length - 2 * n :=
    jsIndex_neg _ _ (by omega)
  have he : jsIndex l.length (-(n : ℤ)) = l.length - n := jsIndex_neg _ _ h0
  rw [jsSlice, h2, hs, he, List.drop_take]
  congr 1
  omega

/-! ## Data model

The `Interview` document as consumed by the analytics controller: only the
fields the aggregation functions read are modelled.  `Option` encodes a
field that may be absent (`undefined`) in the document. -/

/-- Embedded `analysis.tonality` sub-document. -/
structure Tonality where
  confident : Option ℚ
deriving DecidableEq, Repr

/-- Embedded `analysis.fillerWords` sub-document. -/
structure FillerWords where
  count : Option ℚ
deriving DecidableEq, Repr

/-- Embedded `analysis.clarity` sub-document. -/
structure Clarity where
  score : Option ℚ
deriving DecidableEq, Repr

/-- One entry of the `analysis.bodyLanguage` array. -/
structure BodyLanguageObs where
  score : Option ℚ
deriving DecidableEq, Repr

/-- The embedded `analysis` object of a completed interview. -/
structure Analysis where
  overallScore : Option ℚ
  fillerWords : Option FillerWords
  tonality : Option Tonality
  clarity : Option Clarity
  bodyLanguage : List BodyLanguageObs
  strengths : List String
  improvements : Option (List String)
deriving DecidableEq, Repr

/-- An interview record; `createdAt` is an epoch-millisecond timestamp
(kept only as document metadata here). -/
structure Interview where
  analysis : Option Analysis
  createdAt : ℤ
deriving DecidableEq, Repr

/-- The JavaScript access `interview.analysis?.overallScore || 0`. -/
def overallScoreOf (i : Interview) : ℚ :=
  ((i.analysis.bind (·.overallScore)).getD 0)

/-- The JavaScript access `i.analysis?.fillerWords?.count || 0`. -/
def fillerCountOf (i : Interview) : ℚ :=
  (((i.analysis.bind (·.fillerWords)).bind (·.count)).getD 0)

/-- The JavaScript access `(i.analysis?.tonality?.confident || 0) * 100`. -/
def confValueOf (i : Interview) : ℚ :=
  (((i.analysis.bind (·.tonality)).bind (·.confident)).getD 0) * 100

/-! ## Skill-score extraction heuristics (`extract*Score`) -/

/-- Embeds `extractBodyLanguageScore`: the first body-language observation's
score, with 75 substituted when the array is empty or the score is absent
or `0` (the source uses the falsy-defaulting `score || 75`). -/
def extractBodyLanguageScore (a : Analysis) : ℚ :=
  match a.bodyLanguage with
  | [] => 75
  | o :: _ =>
      match o.score with
      | none => 75
      | some s => if s = 0 then 75 else s

/-- Embeds `extractSpeechScore`: base 70, adjusted by clarity and tonality
when those fields are present and non-zero (JavaScript truthiness), then
rounded and clamped to `[0, 100]`. -/
def extractSpeechScore (a : Analysis) : ℚ :=
  let s1 : ℚ :=
    match a.clarity.bind (·.score) with
    | none => 70
    | some c => if c = 0 then 70 else 70 + (c - 5) * 5
  let s2 : ℚ :=
    match a.tonality.bind (·.confident) with
    | none => s1
    | some c => if c = 0 then s1 else s1 + c * 20
  min 100 (max 0 ((⌊s2 + 1/2⌋ : ℤ) : ℚ))

/-- Embeds `extractContentScore`: base 75, plus 10 when there are more than
2 strengths, plus 10 when the improvements array is present with fewer than
3 entries (an absent array fails the `< 3` comparison), capped at 100. -/
def extractContentScore (a : Analysis) : ℚ :=
  let s1 : ℚ := if 2 < a.strengths.length then 75 + 10 else 75
  let s2 : ℚ :=
    match a.improvements with
    | none => s1
    | some l => if l.length < 3 then s1 + 10 else s1
  min 100 s2

/-- The per-record score used by `calculateSkillAverage` for a given
`skillType` string: 0 when the record has no analysis, and the source's
`switch` on the skill name otherwise (unknown names fall to the default
branch, 0). -/
def skillScoreQ (skillType : String) (i : Interview) : ℚ :=
  match i.analysis with
  | none => 0
  | some a =>
      if skillType = "bodyLanguage" then extractBodyLanguageScore a
      else if skillType = "speech" then extractSpeechScore a
      else if skillType = "content" then extractContentScore a
      else if skillType = "confidence" then
        ((a.tonality.bind (·.confident)).getD 0) * 100
      else 0

/-- Embeds `calculateSkillAverage`: keep only the strictly positive
extracted scores, return their rounded mean, or 0 when none remain. -/
def calculateSkillAverage (interviews : List Interview) (skillType : String) : ℚ :=
  let scores :=
    (interviews.map (skillScoreQ skillType)).filter (fun s => decide (0 < s))
  if 0 < scores.length then
    ((⌊scores.sum / (scores.length : ℚ) + 1/2⌋ : ℤ) : ℚ)
  else 0

/-! ## Variance, distribution and the progress-metrics record -/

/-- Embeds `calculateVariance` faithfully to its body (despite the name it
returns the population standard deviation: the mean of the squared
deviations from the mean, then `Math.sqrt`). -/
noncomputable def calculateVariance (scores : List ℚ) : ℝ :=
  let mean : ℝ := (scores.map (fun s : ℚ => (s : ℝ))).sum / scores.length
  let variance : ℝ :=
    (scores.map (fun s : ℚ => ((s : ℝ) - mean) ^ 2)).sum / scores.length
  Real.sqrt variance

/-- The four fixed buckets of `calculateScoreDistribution`. -/
structure ScoreDistribution where
  excellent : ℕ
  good : ℕ
  average : ℕ
  poor : ℕ
deriving DecidableEq, Repr

/-- One step of the `forEach` in `calculateScoreDistribution`: the source's
`if (score >= 90) ... else if (score >= 70) ... else if (score >= 50) ...
else ...` chain. -/
def bucketAdd (d : ScoreDistribution) (score : ℚ) : ScoreDistribution :=
  if 90 ≤ score then { d with excellent := d.excellent + 1 }
  else if 70 ≤ score then { d with good := d.good + 1 }
  else if 50 ≤ score then { d with average := d.average + 1 }
  else { d with poor := d.poor + 1 }

/-- Embeds `calculateScoreDistribution`. -/
def calculateScoreDistribution (scores : List ℚ) : ScoreDistribution :=
  scores.foldl bucketAdd ⟨0, 0, 0, 0⟩

/-- The `skillProgress` sub-object of the progress metrics. -/
structure SkillMetrics where
  bodyLanguage : ℚ
  speech : ℚ
  content : ℚ
  confidence : ℚ
deriving DecidableEq, Repr

/-- The value returned by `calculateProgressMetrics`.  The wall-clock
dependent fields (`streakDays`, which reads the current date, and the
calendar decomposition `monthlyProgress`) are outside the verified claims
and are not modelled. -/
structure ProgressMetrics where
  totalSessions : ℕ
  averageScore : JNum
  improvementRate : JNum
  consistency : ℝ
  skillProgress : SkillMetrics
  bestScore : JNum
  worstScore : JNum
  scoreDistribution : ScoreDistribution

/-- `Math.max(...scores)`: `-Infinity` on an empty spread. -/
def spreadMax (scores : List ℚ) : JNum :=
  match scores with
  | [] => JNum.ninf
  | x :: xs => JNum.num (xs.foldl max x)

/-- `Math.min(...scores)`: `Infinity` on an empty spread. -/
def spreadMin (scores : List ℚ) : JNum :=
  match scores with
  | [] => JNum.inf
  | x :: xs => JNum.num (xs.foldl min x)

/-- Embeds `calculateProgressMetrics`.  The locals mirror the source:
`scores`, the two `slice` halves, their averages, and the improvement
rate, computed with JavaScript number semantics. -/
noncomputable def calculateProgressMetrics (interviews : List Interview) :
    ProgressMetrics :=
  let scores := interviews.map overallScoreOf
  let averageScore := JNum.jdiv (.num scores.sum) (.num (scores.length : ℚ))
  let firstHalf := jsSlice scores 0 ((scores.length / 2 : ℕ) : ℤ)
  let secondHalf := jsSlice scores ((scores.length / 2 : ℕ) : ℤ) (scores.length : ℤ)
  let firstHalfAvg := JNum.jdiv (.num firstHalf.sum) (.num (firstHalf.length : ℚ))
  let secondHalfAvg := JNum.jdiv (.num secondHalf.sum) (.num (secondHalf.length : ℚ))
  let improvementRate :=
    JNum.jmul (JNum.jdiv (JNum.jsub secondHalfAvg firstHalfAvg) firstHalfAvg)
      (.num 100)
  let scoreVariance := calculateVariance scores
  let consistency : ℝ := max 0 (100 - scoreVariance / 10)
  { totalSessions := interviews.length
    averageScore := JNum.jround averageScore
    improvementRate := JNum.jround improvementRate
    consistency := ((⌊consistency + 1/2⌋ : ℤ) : ℝ)
    skillProgress :=
      { bodyLanguage := calculateSkillAverage interviews "bodyLanguage"
        speech := calculateSkillAverage interviews "speech"
        content := calculateSkillAverage interviews "content"
        confidence := calculateSkillAverage interviews "confidence" }
    bestScore := spreadMax scores
    worstScore := spreadMin scores
    scoreDistribution := calculateScoreDistribution scores }

/-- The REST response shape of `getProgressAnalytics` restricted to the
fields relevant here (`success`, `totalInterviews`, `progressMetrics`,
and the short-circuit `message`). -/
structure ProgressResponse where
  success : Bool
  totalInterviews : ℕ
  progressMetrics : Option ProgressMetrics
  message : Option String

/-- Embeds the `getProgressAnalytics` handler after the database fetch:
zero completed interviews short-circuit to a `progressMetrics: null`
payload, otherwise the metrics are computed. -/
noncomputable def getProgressAnalyticsData (interviews : List Interview) :
    ProgressResponse :=
  if interviews.length = 0 then
    { success := true
      totalInterviews := 0
      progressMetrics := none
      message := some "No completed interviews found for analysis" }
  else
    { success := true
      totalInterviews := interviews.length
      progressMetrics := some (calculateProgressMetrics interviews)
      message := none }

/-! ## Trend analyzers, improvement rate, achievements, benchmarks -/

/-- The object returned by `analyzeFillerWordTrend`. -/
structure TrendResult where
  trend : String
  improvement : JNum
  sessions : ℕ
deriving DecidableEq, Repr

/-- Embeds `analyzeFillerWordTrend`: the last `min 3 N` records against the
preceding window of the same width; `improvement` is the percentage
decrease of the filler-word average, and the trend is `improving` above 5,
`declining` below -5 and `stable` otherwise. -/
def analyzeFillerWordTrend (interviews : List Interview) : TrendResult :=
  let recentCount := min 3 interviews.length
  let recent := jsSlice interviews (-(recentCount : ℤ)) (interviews.length : ℤ)
  let previous :=
    jsSlice interviews (-(2 * recentCount : ℤ)) (-(recentCount : ℤ))
  if previous.length = 0 then
    { trend := "neutral", improvement := .num 0, sessions := recentCount }
  else
    let recentAvg :=
      JNum.jdiv (.num (recent.map fillerCountOf).sum) (.num (recent.length : ℚ))
    let previousAvg :=
      JNum.jdiv (.num (previous.map fillerCountOf).sum)
        (.num (previous.length : ℚ))
    let improvement :=
      JNum.jmul (JNum.jdiv (JNum.jsub previousAvg recentAvg) previousAvg)
        (.num 100)
    { trend :=
        if JNum.jgtB improvement (.num 5) then "improving"
        else if JNum.jltB improvement (.num (-5)) then "declining"
        else "stable"
      improvement := JNum.jround improvement
      sessions := recentCount }

/-- The object returned by `analyzeConfidenceTrend`. -/
structure ConfTrendResult where
  trend : String
  improvement : JNum
deriving DecidableEq, Repr

/-- Embeds `analyzeConfidenceTrend`: same windowing as the filler-word
trend, but on the scaled confidence score and with an increase counting
as improvement. -/
def analyzeConfidenceTrend (interviews : List Interview) : ConfTrendResult :=
  let recentCount := min 3 interviews.length
  let recent := jsSlice interviews (-(recentCount : ℤ)) (interviews.length : ℤ)
  let previous :=
    jsSlice interviews (-(2 * recentCount : ℤ)) (-(recentCount : ℤ))
  if previous.length = 0 then
    { trend := "neutral", improvement := .num 0 }
  else
    let recentAvg :=
      JNum.jdiv (.num (recent.map confValueOf).sum) (.num (recent.length : ℚ))
    let previousAvg :=
      JNum.jdiv (.num (previous.map confValueOf).sum)
        (.num (previous.length : ℚ))
    let improvement :=
      JNum.jmul (JNum.jdiv (JNum.jsub recentAvg previousAvg) previousAvg)
        (.num 100)
    { trend :=
        if JNum.jgtB improvement (.num 5) then "improving"
        else if JNum.jltB improvement (.num (-5)) then "declining"
        else "stable"
      improvement := JNum.jround improvement }

/-- Embeds `calculateImprovementRate`: 0 for fewer than 2 records,
otherwise the rounded percentage change from the first overall score to
the last one (unguarded against a zero first score). -/
def calculateImprovementRate (interviews : List Interview) : JNum :=
  if interviews.length < 2 then .num 0
  else
    let firstScore := (interviews.head?.map overallScoreOf).getD 0
    let lastScore := (interviews.getLast?.map overallScoreOf).getD 0
    JNum.jround
      (JNum.jmul (JNum.jdiv (.num (lastScore - firstScore)) (.num firstScore))
        (.num 100))

/-- Embeds `calculateAchievements`, by achievement id.  The presentation
fields of each achievement object (title, description, icon, category and
the unlock timestamp) are constants or timestamps and are not modelled. -/
def calculateAchievements (interviews : List Interview) : List String :=
  (if 1 ≤ interviews.length then ["first_interview"] else []) ++
  (if 5 ≤ interviews.length then ["consistent_learner"] else []) ++
  (if 1 ≤ (interviews.filter
      (fun i => decide ((80 : ℚ) ≤ overallScoreOf i))).length then
    ["high_performer"] else []) ++
  (if 3 ≤ interviews.length then
    (if JNum.jgtB (calculateImprovementRate interviews) (.num 15) then
      ["improvement_master"] else [])
  else []) ++
  (let recentInterviews := jsSlice interviews (-3 : ℤ) (interviews.length : ℤ)
   let avgFillerWords :=
     JNum.jdiv (.num (recentInterviews.map fillerCountOf).sum)
       (.num (recentInterviews.length : ℚ))
   if JNum.jltB avgFillerWords (.num 5) then ["smooth_speaker"] else [])

/-- The user-side averaged metrics handed to `generateBenchmarkInsights`
(the numeric fields of `calculateUserAverageMetrics`). -/
structure UserMetrics where
  overallScore : ℚ
  bodyLanguageScore : ℚ
  speechScore : ℚ
  confidenceScore : ℚ
  fillerWordCount : ℚ
  clarityScore : ℚ
deriving DecidableEq, Repr

/-- The metric keys of the user-metrics object, in insertion order (the
order `Object.keys` iterates them). -/
def benchmarkKeys : List String :=
  ["overallScore", "bodyLanguageScore", "speechScore", "confidenceScore",
   "fillerWordCount", "clarityScore"]

/-- The JavaScript access `userMetrics[metric]`. -/
def userMetricVal (u : UserMetrics) (k : String) : ℚ :=
  if k = "overallScore" then u.overallScore
  else if k = "bodyLanguageScore" then u.bodyLanguageScore
  else if k = "speechScore" then u.speechScore
  else if k = "confidenceScore" then u.confidenceScore
  else if k = "fillerWordCount" then u.fillerWordCount
  else if k = "clarityScore" then u.clarityScore
  else 0

/-- The static table of `getIndustryBenchmarks`, as `benchmarks[metric]`. -/
def industryBenchmarkVal (k : String) : ℚ :=
  if k = "overallScore" then 75
  else if k = "bodyLanguageScore" then 78
  else if k = "speechScore" then 72
  else if k = "confidenceScore" then 70
  else if k = "fillerWordCount" then 8
  else if k = "clarityScore" then 76
  else 0

/-- One emitted benchmark insight. -/
structure BenchmarkInsight where
  metric : String
  userScore : ℚ
  benchmarkScore : ℚ
  difference : ℚ
  percentageDiff : ℤ
  status : String
  significance : String
deriving DecidableEq, Repr

/-- The body of the `forEach` in `generateBenchmarkInsights` for one key:
`none` when no insight is pushed. -/
def mkBenchmarkInsight (u : UserMetrics) (metric : String) :
    Option BenchmarkInsight :=
  if metric = "description" then none
  else
    let userScore := userMetricVal u metric
    let benchmarkScore := industryBenchmarkVal metric
    let difference := userScore - benchmarkScore
    let percentageDiff : ℤ := ⌊difference / benchmarkScore * 100 + 1/2⌋
    if 10 < |percentageDiff| then
      some { metric := metric
             userScore := userScore
             benchmarkScore := benchmarkScore
             difference := difference
             percentageDiff := percentageDiff
             status := if 0 < difference then "above" else "below"
             significance := if 20 < |percentageDiff| then "high" else "medium" }
    else none

/-- Embeds `generateBenchmarkInsights`: iterate the metric keys in order,
pushing an insight whenever the rounded percentage difference exceeds 10
in absolute value. -/
def generateBenchmarkInsights (u : UserMetrics) : List BenchmarkInsight :=
  benchmarkKeys.filterMap (mkBenchmarkInsight u)

/-! ## Specification-side formulations -/

/-- The mean of the first `floor(N/2)` scores, in exact arithmetic. -/
def firstHalfAvgSpec (scores : List ℚ) : ℚ :=
  (scores.take (scores.length / 2)).sum /
    ((scores.take (scores.length / 2)).length : ℚ)

/-- The mean of the remaining scores, in exact arithmetic. -/
def secondHalfAvgSpec (scores : List ℚ) : ℚ :=
  (scores.drop (scores.length / 2)).sum /
    ((scores.drop (scores.length / 2)).length : ℚ)

/-- A minimal interview record carrying only an overall score, as used to
instantiate the theorems below on concrete inputs. -/
def scoreOnlyInterview (s : ℚ) : Interview :=
  ⟨some ⟨some s, none, none, none, [], [], none⟩, 0⟩

/-- An interview record carrying an overall score, a filler-word count and
a tonality confidence. -/
def fullInterview (s fc conf : ℚ) : Interview :=
  ⟨some ⟨some s, some ⟨some fc⟩, some ⟨some conf⟩, none, [], [], none⟩, 0⟩

/-- Claim C1: for at least two completed records whose first-half mean is
non-zero, `calculateProgressMetrics` reports `improvementRate` as the
rounded percentage change between the mean of the first `floor(N/2)`
overall scores and the mean of the remaining ones. -/
theorem improvementRate_eq_split_half_change (ivs : List Interview)
    (h2 : 2 ≤ ivs.length)
    (hfa : firstHalfAvgSpec (ivs.map overallScoreOf) ≠ 0) :
    (calculateProgressMetrics ivs).improvementRate =
      JNum.num ((⌊(secondHalfAvgSpec (ivs.map overallScoreOf) -
          firstHalfAvgSpec (ivs.map overallScoreOf)) /
          firstHalfAvgSpec (ivs.map overallScoreOf) * 100 + 1/2⌋ : ℤ) : ℚ) := by
  have hlen : (ivs.map overallScoreOf).length = ivs.length :=
    List.length_map _ _
  have hhalf : (ivs.map overallScoreOf).length / 2 ≤
      (ivs.map overallScoreOf).length := Nat.div_le_self _ _
  have hTake := jsSlice_zero_take (ivs.map overallScoreOf) _ hhalf
  have hDrop := jsSlice_drop (ivs.map overallScoreOf) _ hhalf
  have hTakeLen : ((ivs.map overallScoreOf).take
      ((ivs.map overallScoreOf).length / 2)).length =
      (ivs.map overallScoreOf).length / 2 := by
    rw [List.length_take]; omega
  have hDropLen : ((ivs.map overallScoreOf).drop
      ((ivs.map overallScoreOf).length / 2)).length =
      (ivs.map overallScoreOf).length -
        (ivs.map overallScoreOf).length / 2 := by
    rw [List.length_drop]
  have hTakeNe : (((ivs.map overallScoreOf).take
      ((ivs.map overallScoreOf).length / 2)).length : ℚ) ≠ 0 := by
    rw [hTakeLen]
    have hne : (ivs.map overallScoreOf).length / 2 ≠ 0 := by omega
    exact_mod_cast hne
  have hDropNe : (((ivs.map overallScoreOf).drop
      ((ivs.map overallScoreOf).length / 2)).length : ℚ) ≠ 0 := by
    rw [hDropLen]
    have hne : (ivs.map overallScoreOf).length -
        (ivs.map overallScoreOf).length / 2 ≠ 0 := by omega
    exact_mod_cast hne
  have hfa' : ((ivs.map overallScoreOf).take
      ((ivs.map overallScoreOf).length / 2)).sum /
      (((ivs.map overallScoreOf).take
        ((ivs.map overallScoreOf).length / 2)).length : ℚ) ≠ 0 := hfa
  simp only [calculateProgressMetrics, hTake, hDrop]
  rw [JNum.jdiv_num_num hTakeNe, JNum.jdiv_num_num hDropNe,
    JNum.jsub_num_num, JNum.jdiv_num_num hfa', JNum.jmul_num_num,
    JNum.jround_num]
  rfl

/-- Witness for C1: two records scoring 50 then 100 satisfy the hypotheses
and yield a 100% improvement rate. -/
theorem improvementRate_eq_split_half_change_witness :
    2 ≤ ([scoreOnlyInterview 50, scoreOnlyInterview 100] : List Interview).length ∧
    firstHalfAvgSpec ([scoreOnlyInterview 50,
      scoreOnlyInterview 100].map overallScoreOf) ≠ 0 ∧
    (calculateProgressMetrics [scoreOnlyInterview 50,
      scoreOnlyInterview 100]).improvementRate = JNum.num 100 := by
  have h2 : 2 ≤ ([scoreOnlyInterview 50,
      scoreOnlyInterview 100] : List Interview).length := by decide
  have hfa : firstHalfAvgSpec ([scoreOnlyInterview 50,
      scoreOnlyInterview 100].map overallScoreOf) ≠ 0 := by
    norm_num [firstHalfAvgSpec, overallScoreOf, scoreOnlyInterview]
  refine ⟨h2, hfa,
    (improvementRate_eq_split_half_change _ h2 hfa).trans ?_⟩
  norm_num [firstHalfAvgSpec, secondHalfAvgSpec, overallScoreOf,
    scoreOnlyInterview, Int.floor_eq_iff]

/-- Claim C2 (evaluation at the failing input): a single record with overall
score 70 yields `improvementRate = NaN` (the first half is empty, so its
average is `0/0`), not the 0 the specification requires; `averageScore`
is 70 as specified. -/
theorem single_record_improvement_rate_is_nan :
    (calculateProgressMetrics [scoreOnlyInterview 70]).improvementRate =
      JNum.nan ∧
    (calculateProgressMetrics [scoreOnlyInterview 70]).averageScore =
      JNum.num 70 := by
  constructor
  · decide
  · norm_num [calculateProgressMetrics, overallScoreOf, scoreOnlyInterview,
      JNum.jdiv, JNum.jround, Int.floor_eq_iff]

/-- Claim C3 (counterexample): on an empty record list the handler does not
return a metrics object with zeroed fields at all — `progressMetrics` is
`null`. -/
theorem empty_input_no_zeroed_metrics :
    ¬ ∃ m : ProgressMetrics,
      (getProgressAnalyticsData []).progressMetrics = some m ∧
      m.improvementRate = JNum.num 0 ∧ m.averageScore = JNum.num 0 ∧
      m.consistency = 0 ∧ m.scoreDistribution = ⟨0, 0, 0, 0⟩ := by
  rintro ⟨m, hm, -⟩
  simp [getProgressAnalyticsData] at hm

/-- Claim C3 (amended): on an empty record list the handler short-circuits
without computing any metrics, returning success with zero total
interviews, a `null` `progressMetrics` and an explanatory message. -/
theorem empty_input_short_circuits :
    getProgressAnalyticsData [] =
      { success := true
        totalInterviews := 0
        progressMetrics := none
        message := some "No completed interviews found for analysis" } := by
  simp [getProgressAnalyticsData]

/-! ## Consistency and the population standard deviation (C5) -/

/-- The population standard deviation of a list of scores, written through
the sum-of-squares identity `Var = E[X²] − E[X]²` (a formulation
independent of the source's accumulation of squared deviations). -/
noncomputable def popStdDevSpec (scores : List ℚ) : ℝ :=
  Real.sqrt ((scores.map (fun s : ℚ => ((s : ℝ)) ^ 2)).sum / scores.length -
    ((scores.map (fun s : ℚ => (s : ℝ))).sum / scores.length) ^ 2)

theorem sum_map_sub_sq (l : List ℚ) (c : ℝ) :
    (l.map (fun s : ℚ => ((s : ℝ) - c) ^ 2)).sum =
      (l.map (fun s : ℚ => ((s : ℝ)) ^ 2)).sum -
        2 * c * (l.map (fun s : ℚ => (s : ℝ))).sum + l.length * c ^ 2 := by
  induction l with
  | nil => simp
  | cons x xs ih =>
    simp only [List.map_cons, List.sum_cons, List.length_cons, ih]
    push_cast
    ring

theorem calculateVariance_eq_popStdDevSpec (scores : List ℚ)
    (h : scores ≠ []) :
    calculateVariance scores = popStdDevSpec scores := by
  have hlen : scores.length ≠ 0 := by
    simpa [List.length_eq_zero] using h
  have hn : (scores.length : ℝ) ≠ 0 := by exact_mod_cast hlen
  simp only [calculateVariance, popStdDevSpec]
  congr 1
  rw [sum_map_sub_sq]
  field_simp
  ring

theorem calculateVariance_replicate (n : ℕ) (s : ℚ) (h : 0 < n) :
    calculateVariance (List.replicate n s) = 0 := by
  have hn : (n : ℝ) ≠ 0 := Nat.cast_ne_zero.mpr h.ne'
  simp only [calculateVariance, List.map_replicate, List.sum_replicate,
    List.length_replicate, nsmul_eq_mul]
  have hmean : (n : ℝ) * (s : ℝ) / n = (s : ℝ) := by field_simp
  rw [hmean]
  simp

/-- Claim C5: `consistency` is the rounding of `max(0, 100 − stdDev/10)` where
`stdDev` is the population standard deviation of the overall scores, and
a run of identical scores therefore scores a consistency of 100. -/
theorem consistency_is_rounded_stddev :
    (∀ ivs : List Interview, ivs ≠ [] →
      (calculateProgressMetrics ivs).consistency =
        ((⌊max 0 (100 - popStdDevSpec (ivs.map overallScoreOf) / 10) +
            1/2⌋ : ℤ) : ℝ)) ∧
    (∀ (n : ℕ) (s : ℚ) (ivs : List Interview), 0 < n →
      ivs.map overallScoreOf = List.replicate n s →
      (calculateProgressMetrics ivs).consistency = 100) := by
  constructor
  · intro ivs h
    have hne : ivs.map overallScoreOf ≠ [] := by
      simpa [List.map_eq_nil_iff] using h
    simp only [calculateProgressMetrics]
    rw [calculateVariance_eq_popStdDevSpec _ hne]
  · intro n s ivs hn hmap
    simp only [calculateProgressMetrics, hmap]
    rw [calculateVariance_replicate _ _ hn]
    norm_num [Int.floor_eq_iff]

/-- Witness for C5: two identical scores of 70 give consistency 100. -/
theorem consistency_is_rounded_stddev_witness :
    (0 : ℕ) < 2 ∧
    ([scoreOnlyInterview 70, scoreOnlyInterview 70].map overallScoreOf =
      List.replicate 2 (70 : ℚ)) ∧
    (calculateProgressMetrics
      [scoreOnlyInterview 70, scoreOnlyInterview 70]).consistency = 100 := by
  have hmap : [scoreOnlyInterview 70, scoreOnlyInterview 70].map
      overallScoreOf = List.replicate 2 (70 : ℚ) := by
    decide
  exact ⟨by norm_num, hmap,
    consistency_is_rounded_stddev.2 2 70 _ (by norm_num) hmap⟩

/-! ## Score-distribution bucketing (C6) -/

theorem bucketAdd_excellent (d : ScoreDistribution) (x : ℚ) :
    (bucketAdd d x).excellent =
      d.excellent + (if 90 ≤ x then 1 else 0) := by
  unfold bucketAdd
  split_ifs <;> simp_all

theorem bucketAdd_good (d : ScoreDistribution) (x : ℚ) :
    (bucketAdd d x).good =
      d.good + (if ¬ 90 ≤ x ∧ 70 ≤ x then 1 else 0) := by
  unfold bucketAdd
  split_ifs <;> simp_all

theorem bucketAdd_average (d : ScoreDistribution) (x : ℚ) :
    (bucketAdd d x).average =
      d.average + (if ¬ 90 ≤ x ∧ ¬ 70 ≤ x ∧ 50 ≤ x then 1 else 0) := by
  unfold bucketAdd
  split_ifs <;> simp_all

theorem bucketAdd_poor (d : ScoreDistribution) (x : ℚ) :
    (bucketAdd d x).poor =
      d.poor + (if ¬ 90 ≤ x ∧ ¬ 70 ≤ x ∧ ¬ 50 ≤ x then 1 else 0) := by
  unfold bucketAdd
  split_ifs <;> simp_all

theorem scoreDistribution_foldl_counts (l : List ℚ) (d : ScoreDistribution) :
    (l.foldl bucketAdd d).excellent =
      d.excellent + l.countP (fun s => decide (90 ≤ s)) ∧
    (l.foldl bucketAdd d).good =
      d.good + l.countP (fun s => decide (¬ 90 ≤ s ∧ 70 ≤ s)) ∧
    (l.foldl bucketAdd d).average =
      d.average + l.countP (fun s => decide (¬ 90 ≤ s ∧ ¬ 70 ≤ s ∧ 50 ≤ s)) ∧
    (l.foldl bucketAdd d).poor =
      d.poor + l.countP (fun s => decide (¬ 90 ≤ s ∧ ¬ 70 ≤ s ∧ ¬ 50 ≤ s)) := by
  induction l generalizing d with
  | nil => simp
  | cons x xs ih =>
    simp only [List.foldl_cons, List.countP_cons]
    obtain ⟨ihe, ihg, iha, ihp⟩ := ih (bucketAdd d x)
    refine ⟨?_, ?_, ?_, ?_⟩
    · rw [ihe, bucketAdd_excellent]
      by_cases h90 : (90 : ℚ) ≤ x <;> simp [h90] <;> omega
    · rw [ihg, bucketAdd_good]
      by_cases h90 : (90 : ℚ) ≤ x <;> by_cases h70 : (70 : ℚ) ≤ x <;>
        simp [h90, h70] <;> omega
    · rw [iha, bucketAdd_average]
      by_cases h90 : (90 : ℚ) ≤ x <;> by_cases h70 : (70 : ℚ) ≤ x <;>
        by_cases h50 : (50 : ℚ) ≤ x <;> simp [h90, h70, h50] <;> omega
    · rw [ihp, bucketAdd_poor]
      by_cases h90 : (90 : ℚ) ≤ x <;> by_cases h70 : (70 : ℚ) ≤ x <;>
        by_cases h50 : (50 : ℚ) ≤ x <;> simp [h90, h70, h50] <;> omega

theorem bucketAdd_total (d : ScoreDistribution) (x : ℚ) :
    (bucketAdd d x).excellent + (bucketAdd d x).good +
      (bucketAdd d x).average + (bucketAdd d x).poor =
      d.excellent + d.good + d.average + d.poor + 1 := by
  unfold bucketAdd
  split_ifs <;> simp <;> omega

theorem scoreDistribution_foldl_total (l : List ℚ) (d : ScoreDistribution) :
    (l.foldl bucketAdd d).excellent + (l.foldl bucketAdd d).good +
      (l.foldl bucketAdd d).average + (l.foldl bucketAdd d).poor =
      d.excellent + d.good + d.average + d.poor + l.length := by
  induction l generalizing d with
  | nil => simp
  | cons x xs ih =>
    simp only [List.foldl_cons, List.length_cons]
    rw [ih (bucketAdd d x), bucketAdd_total]
    omega

/-- Claim C6: with integer scores in `[0, 100]`, the distribution counts each
score in exactly one bucket: `[90,100]` excellent, `[70,89]` good,
`[50,69]` average, `[0,49]` poor, and the four counts partition the
list. -/
theorem score_distribution_buckets (scores : List ℤ)
    (hb : ∀ s ∈ scores, 0 ≤ s ∧ s ≤ 100) :
    (calculateScoreDistribution (scores.map (fun s : ℤ => (s : ℚ)))).excellent =
      (scores.filter (fun s => decide (90 ≤ s ∧ s ≤ 100))).length ∧
    (calculateScoreDistribution (scores.map (fun s : ℤ => (s : ℚ)))).good =
      (scores.filter (fun s => decide (70 ≤ s ∧ s ≤ 89))).length ∧
    (calculateScoreDistribution (scores.map (fun s : ℤ => (s : ℚ)))).average =
      (scores.filter (fun s => decide (50 ≤ s ∧ s ≤ 69))).length ∧
    (calculateScoreDistribution (scores.map (fun s : ℤ => (s : ℚ)))).poor =
      (scores.filter (fun s => decide (0 ≤ s ∧ s ≤ 49))).length ∧
    (calculateScoreDistribution (scores.map (fun s : ℤ => (s : ℚ)))).excellent +
      (calculateScoreDistribution (scores.map (fun s : ℤ => (s : ℚ)))).good +
      (calculateScoreDistribution (scores.map (fun s : ℤ => (s : ℚ)))).average +
      (calculateScoreDistribution (scores.map (fun s : ℤ => (s : ℚ)))).poor =
      scores.length := by
  obtain ⟨he, hg, ha, hp⟩ :=
    scoreDistribution_foldl_counts (scores.map (fun s : ℤ => (s : ℚ)))
      ⟨0, 0, 0, 0⟩
  have htot := scoreDistribution_foldl_total
    (scores.map (fun s : ℤ => (s : ℚ))) ⟨0, 0, 0, 0⟩
  have hcong1 : ∀ a ∈ scores,
      ((((fun s : ℚ => decide (90 ≤ s)) ∘ (fun s : ℤ => (s : ℚ))) a) = true) ↔
      (((fun s : ℤ => decide (90 ≤ s ∧ s ≤ 100)) a) = true) := by
    intro a ha
    have hb' := hb a ha
    simp only [Function.comp_apply, decide_eq_true_eq]
    constructor
    · intro h'
      exact ⟨by exact_mod_cast h', hb'.2⟩
    · intro h'
      exact_mod_cast h'.1
  have hcong2 : ∀ a ∈ scores,
      ((((fun s : ℚ => decide (¬ 90 ≤ s ∧ 70 ≤ s)) ∘
        (fun s : ℤ => (s : ℚ))) a) = true) ↔
      (((fun s : ℤ => decide (70 ≤ s ∧ s ≤ 89)) a) = true) := by
    intro a ha
    simp only [Function.comp_apply, decide_eq_true_eq]
    constructor
    · rintro ⟨h1, h2⟩
      have h1' : ¬ (90 : ℤ) ≤ a := fun hc => h1 (by exact_mod_cast hc)
      have h2' : (70 : ℤ) ≤ a := by exact_mod_cast h2
      omega
    · rintro ⟨h1, h2⟩
      refine ⟨fun hc => ?_, by exact_mod_cast h1⟩
      have hc' : (90 : ℤ) ≤ a := by exact_mod_cast hc
      omega
  have hcong3 : ∀ a ∈ scores,
      ((((fun s : ℚ => decide (¬ 90 ≤ s ∧ ¬ 70 ≤ s ∧ 50 ≤ s)) ∘
        (fun s : ℤ => (s : ℚ))) a) = true) ↔
      (((fun s : ℤ => decide (50 ≤ s ∧ s ≤ 69)) a) = true) := by
    intro a ha
    simp only [Function.comp_apply, decide_eq_true_eq]
    constructor
    · rintro ⟨h1, h2, h3⟩
      have h2' : ¬ (70 : ℤ) ≤ a := fun hc => h2 (by exact_mod_cast hc)
      have h3' : (50 : ℤ) ≤ a := by exact_mod_cast h3
      omega
    · rintro ⟨h1, h2⟩
      refine ⟨fun hc => ?_, fun hc => ?_, by exact_mod_cast h1⟩
      · have hc' : (90 : ℤ) ≤ a := by exact_mod_cast hc
        omega
      · have hc' : (70 : ℤ) ≤ a := by exact_mod_cast hc
        omega
  have hcong4 : ∀ a ∈ scores,
      ((((fun s : ℚ => decide (¬ 90 ≤ s ∧ ¬ 70 ≤ s ∧ ¬ 50 ≤ s)) ∘
        (fun s : ℤ => (s : ℚ))) a) = true) ↔
      (((fun s : ℤ => decide (0 ≤ s ∧ s ≤ 49)) a) = true) := by
    intro a ha
    have hb' := hb a ha
    simp only [Function.comp_apply, decide_eq_true_eq]
    constructor
    · rintro ⟨h1, h2, h3⟩
      have h3' : ¬ (50 : ℤ) ≤ a := fun hc => h3 (by exact_mod_cast hc)
      omega
    · rintro ⟨h1, h2⟩
      refine ⟨fun hc => ?_, fun hc => ?_, fun hc => ?_⟩
      · have hc' : (90 : ℤ) ≤ a := by exact_mod_cast hc
        omega
      · have hc' : (70 : ℤ) ≤ a := by exact_mod_cast hc
        omega
      · have hc' : (50 : ℤ) ≤ a := by exact_mod_cast hc
        omega
  refine ⟨?_, ?_, ?_, ?_, ?_⟩
  · simp only [calculateScoreDistribution]
    rw [he, List.countP_map, List.countP_congr hcong1,
      List.countP_eq_length_filter]
    simp
  · simp only [calculateScoreDistribution]
    rw [hg, List.countP_map, List.countP_congr hcong2,
      List.countP_eq_length_filter]
    simp
  · simp only [calculateScoreDistribution]
    rw [ha, List.countP_map, List.countP_congr hcong3,
      List.countP_eq_length_filter]
    simp
  · simp only [calculateScoreDistribution]
    rw [hp, List.countP_map, List.countP_congr hcong4,
      List.countP_eq_length_filter]
    simp
  · simp only [calculateScoreDistribution]
    simpa using htot

/-- Witness for C6: the boundary scores 90 and 89 land in `excellent` and
`good` respectively. -/
theorem score_distribution_buckets_witness :
    (∀ s ∈ ([90, 89, 50, 49, 100, 0] : List ℤ), 0 ≤ s ∧ s ≤ 100) ∧
    (calculateScoreDistribution (([90, 89, 50, 49, 100, 0] : List ℤ).map
      (fun s : ℤ => (s : ℚ)))).excellent = 2 ∧
    (calculateScoreDistribution (([90, 89, 50, 49, 100, 0] : List ℤ).map
      (fun s : ℤ => (s : ℚ)))).good = 1 ∧
    (calculateScoreDistribution (([90, 89, 50, 49, 100, 0] : List ℤ).map
      (fun s : ℤ => (s : ℚ)))).average = 1 ∧
    (calculateScoreDistribution (([90, 89, 50, 49, 100, 0] : List ℤ).map
      (fun s : ℤ => (s : ℚ)))).poor = 2 := by
  have hb : ∀ s ∈ ([90, 89, 50, 49, 100, 0] : List ℤ), 0 ≤ s ∧ s ≤ 100 := by
    decide
  obtain ⟨he, hg, ha, hp, -⟩ := score_distribution_buckets _ hb
  exact ⟨hb, he.trans (by decide), hg.trans (by decide),
    ha.trans (by decide), hp.trans (by decide)⟩

/-! ## Trend windows (C7) -/

/-- The mean of metric `f` over the last 3 records. -/
def recentWindowAvg (f : Interview → ℚ) (ivs : List Interview) : ℚ :=
  ((ivs.drop (ivs.length - 3)).map f).sum /
    ((ivs.drop (ivs.length - 3)).length : ℚ)

/-- The mean of metric `f` over the 3 records preceding the last 3. -/
def prevWindowAvg (f : Interview → ℚ) (ivs : List Interview) : ℚ :=
  (((ivs.drop (ivs.length - 6)).take 3).map f).sum /
    (((ivs.drop (ivs.length - 6)).take 3).length : ℚ)

theorem analyzeFillerWordTrend_eval (ivs : List Interview)
    (h6 : 6 ≤ ivs.length) (hp : prevWindowAvg fillerCountOf ivs ≠ 0) :
    analyzeFillerWordTrend ivs =
      { trend :=
          if 5 < (prevWindowAvg fillerCountOf ivs -
              recentWindowAvg fillerCountOf ivs) /
              prevWindowAvg fillerCountOf ivs * 100 then "improving"
          else if (prevWindowAvg fillerCountOf ivs -
              recentWindowAvg fillerCountOf ivs) /
              prevWindowAvg fillerCountOf ivs * 100 < -5 then "declining"
          else "stable"
        improvement := JNum.num ((⌊(prevWindowAvg fillerCountOf ivs -
            recentWindowAvg fillerCountOf ivs) /
            prevWindowAvg fillerCountOf ivs * 100 + 1/2⌋ : ℤ) : ℚ)
        sessions := 3 } := by
  have hmin : min 3 ivs.length = 3 := min_eq_left (by omega)
  have hrec := jsSlice_neg_suffix ivs 3 (by norm_num)
  have hprev := jsSlice_neg_window ivs 3 (by norm_num) (by omega)
  have h26 : ivs.length - 2 * 3 = ivs.length - 6 := by norm_num
  rw [h26] at hprev
  have hreclen : (ivs.drop (ivs.length - 3)).length = 3 := by
    rw [List.length_drop]; omega
  have hprevlen : ((ivs.drop (ivs.length - 6)).take 3).length = 3 := by
    rw [List.length_take, List.length_drop]; omega
  have hthree : ((3 : ℕ) : ℚ) ≠ 0 := by norm_num
  simp only [prevWindowAvg, recentWindowAvg, hprevlen, hreclen] at hp ⊢
  simp only [analyzeFillerWordTrend, hmin, hrec, hprev, hprevlen, hreclen]
  rw [if_neg (by norm_num)]
  rw [JNum.jdiv_num_num hthree, JNum.jdiv_num_num hthree, JNum.jsub_num_num,
    JNum.jdiv_num_num hp, JNum.jmul_num_num, JNum.jround_num,
    JNum.jgtB_num_num, JNum.jltB_num_num]
  simp only [decide_eq_true_eq]

theorem analyzeConfidenceTrend_eval (ivs : List Interview)
    (h6 : 6 ≤ ivs.length) (hp : prevWindowAvg confValueOf ivs ≠ 0) :
    analyzeConfidenceTrend ivs =
      { trend :=
          if 5 < (recentWindowAvg confValueOf ivs -
              prevWindowAvg confValueOf ivs) /
              prevWindowAvg confValueOf ivs * 100 then "improving"
          else if (recentWindowAvg confValueOf ivs -
              prevWindowAvg confValueOf ivs) /
              prevWindowAvg confValueOf ivs * 100 < -5 then "declining"
          else "stable"
        improvement := JNum.num ((⌊(recentWindowAvg confValueOf ivs -
            prevWindowAvg confValueOf ivs) /
            prevWindowAvg confValueOf ivs * 100 + 1/2⌋ : ℤ) : ℚ) } := by
  have hmin : min 3 ivs.length = 3 := min_eq_left (by omega)
  have hrec := jsSlice_neg_suffix ivs 3 (by norm_num)
  have hprev := jsSlice_neg_window ivs 3 (by norm_num) (by omega)
  have h26 : ivs.length - 2 * 3 = ivs.length - 6 := by norm_num
  rw [h26] at hprev
  have hreclen : (ivs.drop (ivs.length - 3)).length = 3 := by
    rw [List.length_drop]; omega
  have hprevlen : ((ivs.drop (ivs.length - 6)).take 3).length = 3 := by
    rw [List.length_take, List.length_drop]; omega
  have hthree : ((3 : ℕ) : ℚ) ≠ 0 := by norm_num
  simp only [prevWindowAvg, recentWindowAvg, hprevlen, hreclen] at hp ⊢
  simp only [analyzeConfidenceTrend, hmin, hrec, hprev, hprevlen, hreclen]
  rw [if_neg (by norm_num)]
  rw [JNum.jdiv_num_num hthree, JNum.jdiv_num_num hthree, JNum.jsub_num_num,
    JNum.jdiv_num_num hp, JNum.jmul_num_num, JNum.jround_num,
    JNum.jgtB_num_num, JNum.jltB_num_num]
  simp only [decide_eq_true_eq]

/-- Claim C7: with at least 6 records and a non-zero previous-window average,
the filler-word trend is classified `improving`, `declining` or `stable`
by the ±5% threshold on the percentage decrease (so a 20% drop is
`improving`), and the confidence trend applies the same threshold with an
increase counting as improvement. -/
theorem trend_windows_five_percent_threshold (ivs : List Interview)
    (h6 : 6 ≤ ivs.length) :
    (prevWindowAvg fillerCountOf ivs ≠ 0 →
      ((analyzeFillerWordTrend ivs).trend = "improving" ↔
        5 < (prevWindowAvg fillerCountOf ivs -
          recentWindowAvg fillerCountOf ivs) /
          prevWindowAvg fillerCountOf ivs * 100) ∧
      ((analyzeFillerWordTrend ivs).trend = "declining" ↔
        (prevWindowAvg fillerCountOf ivs -
          recentWindowAvg fillerCountOf ivs) /
          prevWindowAvg fillerCountOf ivs * 100 < -5) ∧
      ((analyzeFillerWordTrend ivs).trend = "stable" ↔
        (¬ 5 < (prevWindowAvg fillerCountOf ivs -
            recentWindowAvg fillerCountOf ivs) /
            prevWindowAvg fillerCountOf ivs * 100 ∧
         ¬ (prevWindowAvg fillerCountOf ivs -
            recentWindowAvg fillerCountOf ivs) /
            prevWindowAvg fillerCountOf ivs * 100 < -5)) ∧
      (0 < prevWindowAvg fillerCountOf ivs →
        recentWindowAvg fillerCountOf ivs =
          4/5 * prevWindowAvg fillerCountOf ivs →
        (analyzeFillerWordTrend ivs).trend = "improving")) ∧
    (prevWindowAvg confValueOf ivs ≠ 0 →
      ((analyzeConfidenceTrend ivs).trend = "improving" ↔
        5 < (recentWindowAvg confValueOf ivs -
          prevWindowAvg confValueOf ivs) /
          prevWindowAvg confValueOf ivs * 100) ∧
      ((analyzeConfidenceTrend ivs).trend = "declining" ↔
        (recentWindowAvg confValueOf ivs -
          prevWindowAvg confValueOf ivs) /
          prevWindowAvg confValueOf ivs * 100 < -5) ∧
      ((analyzeConfidenceTrend ivs).trend = "stable" ↔
        (¬ 5 < (recentWindowAvg confValueOf ivs -
            prevWindowAvg confValueOf ivs) /
            prevWindowAvg confValueOf ivs * 100 ∧
         ¬ (recentWindowAvg confValueOf ivs -
            prevWindowAvg confValueOf ivs) /
            prevWindowAvg confValueOf ivs * 100 < -5))) := by
  constructor
  · intro hp
    rw [analyzeFillerWordTrend_eval ivs h6 hp]
    set pct := (prevWindowAvg fillerCountOf ivs -
      recentWindowAvg fillerCountOf ivs) /
      prevWindowAvg fillerCountOf ivs * 100 with hpct
    by_cases h1 : 5 < pct
    · simp only [if_pos h1]
      refine ⟨by simp [h1], ?_, ?_, fun _ _ => by trivial⟩
      · constructor
        · intro hc
          exact absurd hc (by decide)
        · intro hc
          exfalso
          linarith
      · constructor
        · intro hc
          exact absurd hc (by decide)
        · rintro ⟨hcl, -⟩
          exact absurd h1 hcl
    · by_cases h2 : pct < -5
      · simp only [if_neg h1, if_pos h2]
        refine ⟨?_, by simp [h2], ?_, ?_⟩
        · constructor
          · intro hc
            exact absurd hc (by decide)
          · intro hc
            exact absurd hc h1
        · constructor
          · intro hc
            exact absurd hc (by decide)
          · rintro ⟨-, hcl⟩
            exact absurd h2 hcl
        · intro hpos heq
          have h20 : pct = 20 := by
            rw [hpct, heq]
            field_simp
            ring
          exact absurd (show (5 : ℚ) < pct by rw [h20]; norm_num) h1
      · simp only [if_neg h1, if_neg h2]
        refine ⟨?_, ?_, by simp [h1, h2], ?_⟩
        · constructor
          · intro hc
            exact absurd hc (by decide)
          · intro hc
            exact absurd hc h1
        · constructor
          · intro hc
            exact absurd hc (by decide)
          · intro hc
            exact absurd hc h2
        · intro hpos heq
          have h20 : pct = 20 := by
            rw [hpct, heq]
            field_simp
            ring
          exact absurd (show (5 : ℚ) < pct by rw [h20]; norm_num) h1
  · intro hp
    rw [analyzeConfidenceTrend_eval ivs h6 hp]
    set pct := (recentWindowAvg confValueOf ivs -
      prevWindowAvg confValueOf ivs) /
      prevWindowAvg confValueOf ivs * 100 with hpct
    by_cases h1 : 5 < pct
    · simp only [if_pos h1]
      refine ⟨by simp [h1], ?_, ?_⟩
      · constructor
        · intro hc
          exact absurd hc (by decide)
        · intro hc
          exfalso
          linarith
      · constructor
        · intro hc
          exact absurd hc (by decide)
        · rintro ⟨hcl, -⟩
          exact absurd h1 hcl
    · by_cases h2 : pct < -5
      · simp only [if_neg h1, if_pos h2]
        refine ⟨?_, by simp [h2], ?_⟩
        · constructor
          · intro hc
            exact absurd hc (by decide)
          · intro hc
            exact absurd hc h1
        · constructor
          · intro hc
            exact absurd hc (by decide)
          · rintro ⟨-, hcl⟩
            exact absurd h2 hcl
      · simp only [if_neg h1, if_neg h2]
        refine ⟨?_, ?_, by simp [h1, h2]⟩
        · constructor
          · intro hc
            exact absurd hc (by decide)
          · intro hc
            exact absurd hc h1
        · constructor
          · intro hc
            exact absurd hc (by decide)
          · intro hc
            exact absurd hc h2

/-- Six records whose last three average a 20% lower filler-word count
(8 vs 10) and a 20% higher confidence (0.6 vs 0.5) than the prior
three. -/
def sixTrendInterviews : List Interview :=
  [fullInterview 70 10 (1/2), fullInterview 70 10 (1/2),
   fullInterview 70 10 (1/2), fullInterview 70 8 (3/5),
   fullInterview 70 8 (3/5), fullInterview 70 8 (3/5)]

/-- Witness for C7: a 20% drop in filler words is `improving`, and a 20%
rise in confidence is `improving`. -/
theorem trend_windows_five_percent_threshold_witness :
    6 ≤ sixTrendInterviews.length ∧
    prevWindowAvg fillerCountOf sixTrendInterviews ≠ 0 ∧
    (analyzeFillerWordTrend sixTrendInterviews).trend = "improving" ∧
    prevWindowAvg confValueOf sixTrendInterviews ≠ 0 ∧
    (analyzeConfidenceTrend sixTrendInterviews).trend = "improving" := by
  have h6 : 6 ≤ sixTrendInterviews.length := by decide
  have hpF : prevWindowAvg fillerCountOf sixTrendInterviews ≠ 0 := by
    norm_num [prevWindowAvg, fillerCountOf, sixTrendInterviews, fullInterview]
  have hpC : prevWindowAvg confValueOf sixTrendInterviews ≠ 0 := by
    norm_num [prevWindowAvg, confValueOf, sixTrendInterviews, fullInterview]
  obtain ⟨hF, hC⟩ := trend_windows_five_percent_threshold sixTrendInterviews h6
  refine ⟨h6, hpF, ?_, hpC, ?_⟩
  · exact (hF hpF).1.mpr (by
      norm_num [prevWindowAvg, recentWindowAvg, fillerCountOf,
        sixTrendInterviews, fullInterview])
  · exact (hC hpC).1.mpr (by
      norm_num [prevWindowAvg, recentWindowAvg, confValueOf,
        sixTrendInterviews, fullInterview])

theorem analyzeFillerWordTrend_eval6 (ivs : List Interview)
    (h6 : 6 ≤ ivs.length) :
    analyzeFillerWordTrend ivs =
      { trend :=
          if JNum.jgtB (JNum.jmul (JNum.jdiv
              (JNum.num (prevWindowAvg fillerCountOf ivs -
                recentWindowAvg fillerCountOf ivs))
              (JNum.num (prevWindowAvg fillerCountOf ivs)))
              (JNum.num 100)) (JNum.num 5) then "improving"
          else if JNum.jltB (JNum.jmul (JNum.jdiv
              (JNum.num (prevWindowAvg fillerCountOf ivs -
                recentWindowAvg fillerCountOf ivs))
              (JNum.num (prevWindowAvg fillerCountOf ivs)))
              (JNum.num 100)) (JNum.num (-5)) then "declining"
          else "stable"
        improvement := JNum.jround (JNum.jmul (JNum.jdiv
            (JNum.num (prevWindowAvg fillerCountOf ivs -
              recentWindowAvg fillerCountOf ivs))
            (JNum.num (prevWindowAvg fillerCountOf ivs)))
            (JNum.num 100))
        sessions := 3 } := by
  have hmin : min 3 ivs.length = 3 := min_eq_left (by omega)
  have hrec := jsSlice_neg_suffix ivs 3 (by norm_num)
  have hprev := jsSlice_neg_window ivs 3 (by norm_num) (by omega)
  have h26 : ivs.length - 2 * 3 = ivs.length - 6 := by norm_num
  rw [h26] at hprev
  have hreclen : (ivs.drop (ivs.length - 3)).length = 3 := by
    rw [List.length_drop]; omega
  have hprevlen : ((ivs.drop (ivs.length - 6)).take 3).length = 3 := by
    rw [List.length_take, List.length_drop]; omega
  have hthree : ((3 : ℕ) : ℚ) ≠ 0 := by norm_num
  simp only [prevWindowAvg, recentWindowAvg, hprevlen, hreclen]
  simp only [analyzeFillerWordTrend, hmin, hrec, hprev, hprevlen, hreclen]
  rw [if_neg (by norm_num)]
  rw [JNum.jdiv_num_num hthree, JNum.jdiv_num_num hthree, JNum.jsub_num_num]

/-- Six records whose previous window has a zero filler-word average while
the recent window averages 10. -/
def zeroPrevTrendInterviews : List Interview :=
  [fullInterview 70 0 0, fullInterview 70 0 0, fullInterview 70 0 0,
   fullInterview 70 10 0, fullInterview 70 10 0, fullInterview 70 10 0]

/-- Claim C4 (evaluation at the failing inputs): a zero previous-window average
makes `analyzeFillerWordTrend` emit `improvement = -Infinity` (classified
`declining`, not a neutral default), and a zero first score makes
`calculateImprovementRate` return `Infinity`. -/
theorem zero_denominator_propagates_infinity :
    analyzeFillerWordTrend zeroPrevTrendInterviews =
      { trend := "declining", improvement := JNum.ninf, sessions := 3 } ∧
    calculateImprovementRate
      [scoreOnlyInterview 0, scoreOnlyInterview 50] = JNum.inf := by
  constructor
  · have h6 : 6 ≤ zeroPrevTrendInterviews.length := by decide
    rw [analyzeFillerWordTrend_eval6 _ h6]
    have hprev : prevWindowAvg fillerCountOf zeroPrevTrendInterviews = 0 := by
      norm_num [prevWindowAvg, fillerCountOf, zeroPrevTrendInterviews,
        fullInterview]
    have hrec : recentWindowAvg fillerCountOf zeroPrevTrendInterviews = 10 := by
      norm_num [recentWindowAvg, fillerCountOf, zeroPrevTrendInterviews,
        fullInterview]
    rw [hprev, hrec]
    norm_num [JNum.jdiv, JNum.jmul, JNum.jround, JNum.jgtB, JNum.jltB]
  · norm_num [calculateImprovementRate, scoreOnlyInterview, overallScoreOf,
      JNum.jdiv, JNum.jmul, JNum.jround]

/-! ## Achievements (C8) -/

theorem mem_if_nil {c : Prop} [Decidable c] {a : String} {l : List String} :
    (a ∈ (if c then l else ([] : List String))) ↔ (c ∧ a ∈ l) := by
  split <;> simp_all

theorem mem_if_singleton {c : Prop} [Decidable c] {a b : String} :
    (a ∈ (if c then [b] else ([] : List String))) ↔ (c ∧ a = b) := by
  split <;> simp_all

/-- Claim C8: the `consistent_learner` achievement is awarded exactly when the
history holds at least 5 records. -/
theorem consistent_learner_iff_five_records (ivs : List Interview) :
    "consistent_learner" ∈ calculateAchievements ivs ↔ 5 ≤ ivs.length := by
  simp [calculateAchievements, List.mem_append, mem_if_nil, mem_if_singleton]

/-- Witness for C8: exactly 5 records unlock `consistent_learner`, exactly
4 do not. -/
theorem consistent_learner_iff_five_records_witness :
    "consistent_learner" ∈
      calculateAchievements (List.replicate 5 (scoreOnlyInterview 70)) ∧
    "consistent_learner" ∉
      calculateAchievements (List.replicate 4 (scoreOnlyInterview 70)) := by
  constructor
  · exact (consistent_learner_iff_five_records _).mpr (by decide)
  · intro h
    exact absurd ((consistent_learner_iff_five_records _).mp h) (by decide)

/-! ## Benchmark insights (C9) -/

theorem mkBenchmarkInsight_eq_some (u : UserMetrics) (k : String)
    (ins : BenchmarkInsight) :
    mkBenchmarkInsight u k = some ins ↔
      (k ≠ "description" ∧
       10 < |(⌊(userMetricVal u k - industryBenchmarkVal k) /
          industryBenchmarkVal k * 100 + 1/2⌋ : ℤ)| ∧
       ins = { metric := k
               userScore := userMetricVal u k
               benchmarkScore := industryBenchmarkVal k
               difference := userMetricVal u k - industryBenchmarkVal k
               percentageDiff := ⌊(userMetricVal u k -
                 industryBenchmarkVal k) /
                 industryBenchmarkVal k * 100 + 1/2⌋
               status := if 0 < userMetricVal u k - industryBenchmarkVal k
                 then "above" else "below"
               significance := if 20 < |(⌊(userMetricVal u k -
                   industryBenchmarkVal k) /
                   industryBenchmarkVal k * 100 + 1/2⌋ : ℤ)|
                 then "high" else "medium" }) := by
  by_cases hd : k = "description"
  · simp [mkBenchmarkInsight, hd]
  · by_cases ht : 10 < |(⌊(userMetricVal u k - industryBenchmarkVal k) /
        industryBenchmarkVal k * 100 + 1/2⌋ : ℤ)|
    · simp only [mkBenchmarkInsight, if_neg hd, if_pos ht, Option.some_inj]
      constructor
      · intro h
        exact ⟨hd, ht, h.symm⟩
      · rintro ⟨-, -, h⟩
        exact h.symm
    · simp only [mkBenchmarkInsight, if_neg hd, if_neg ht, reduceCtorEq,
        false_iff]
      rintro ⟨-, hc, -⟩
      exact absurd hc ht

/-- Claim C9: an insight is emitted for a metric exactly when the rounded
percentage difference against the static benchmark exceeds 10 in absolute
value; its status is `above` exactly for a positive difference and
`below` otherwise, and its significance is `high` exactly above 20,
`medium` otherwise. -/
theorem benchmark_insight_thresholds (u : UserMetrics) (name : String) :
    ((∃ ins ∈ generateBenchmarkInsights u, ins.metric = name) ↔
      (name ∈ benchmarkKeys ∧
        10 < |(⌊(userMetricVal u name - industryBenchmarkVal name) /
          industryBenchmarkVal name * 100 + 1/2⌋ : ℤ)|)) ∧
    (∀ ins ∈ generateBenchmarkInsights u, ins.metric = name →
      ((ins.status = "above" ↔
         0 < userMetricVal u name - industryBenchmarkVal name) ∧
       (ins.status = "below" ↔
         userMetricVal u name - industryBenchmarkVal name ≤ 0) ∧
       (ins.significance = "high" ↔
         20 < |(⌊(userMetricVal u name - industryBenchmarkVal name) /
           industryBenchmarkVal name * 100 + 1/2⌋ : ℤ)|) ∧
       (ins.significance = "medium" ↔
         |(⌊(userMetricVal u name - industryBenchmarkVal name) /
           industryBenchmarkVal name * 100 + 1/2⌋ : ℤ)| ≤ 20))) := by
  have hnd : ∀ n, n ∈ benchmarkKeys → n ≠ "description" := by decide
  constructor
  · constructor
    · rintro ⟨ins, hmem, hmetric⟩
      rw [generateBenchmarkInsights, List.mem_filterMap] at hmem
      obtain ⟨k, hk, hsome⟩ := hmem
      obtain ⟨-, hgt, hins⟩ := (mkBenchmarkInsight_eq_some u k ins).mp hsome
      have hmet : ins.metric = k := by rw [hins]
      have hkn : k = name := hmet.symm.trans hmetric
      subst hkn
      exact ⟨hk, hgt⟩
    · rintro ⟨hmem, hgt⟩
      refine ⟨{ metric := name
                userScore := userMetricVal u name
                benchmarkScore := industryBenchmarkVal name
                difference := userMetricVal u name - industryBenchmarkVal name
                percentageDiff := ⌊(userMetricVal u name -
                  industryBenchmarkVal name) /
                  industryBenchmarkVal name * 100 + 1/2⌋
                status := if 0 < userMetricVal u name -
                    industryBenchmarkVal name then "above" else "below"
                significance := if 20 < |(⌊(userMetricVal u name -
                    industryBenchmarkVal name) /
                    industryBenchmarkVal name * 100 + 1/2⌋ : ℤ)|
                  then "high" else "medium" }, ?_, rfl⟩
      rw [generateBenchmarkInsights, List.mem_filterMap]
      exact ⟨name, hmem,
        (mkBenchmarkInsight_eq_some u name _).mpr ⟨hnd name hmem, hgt, rfl⟩⟩
  · rintro ins hmem hmetric
    rw [generateBenchmarkInsights, List.mem_filterMap] at hmem
    obtain ⟨k, hk, hsome⟩ := hmem
    obtain ⟨-, hgt, hins⟩ := (mkBenchmarkInsight_eq_some u k ins).mp hsome
    have hmet : ins.metric = k := by rw [hins]
    have hkn : k = name := hmet.symm.trans hmetric
    subst hkn
    rw [hins]
    refine ⟨?_, ?_, ?_, ?_⟩
    · by_cases hpos : 0 < userMetricVal u k - industryBenchmarkVal k
      · simp [hpos]
      · simp only [if_neg hpos]
        constructor
        · intro hc
          exact absurd hc (by decide)
        · intro hc
          exact absurd hc hpos
    · by_cases hpos : 0 < userMetricVal u k - industryBenchmarkVal k
      · simp only [if_pos hpos]
        constructor
        · intro hc
          exact absurd hc (by decide)
        · intro hc
          exact absurd hpos (not_lt.mpr hc)
      · simp only [if_neg hpos]
        constructor
        · intro hc
          exact not_lt.mp hpos
        · intro hc
          trivial
    · by_cases hhi : 20 < |(⌊(userMetricVal u k -
          industryBenchmarkVal k) /
          industryBenchmarkVal k * 100 + 1/2⌋ : ℤ)|
      · simp [hhi]
      · simp only [if_neg hhi]
        constructor
        · intro hc
          exact absurd hc (by decide)
        · intro hc
          exact absurd hc hhi
    · by_cases hhi : 20 < |(⌊(userMetricVal u k -
          industryBenchmarkVal k) /
          industryBenchmarkVal k * 100 + 1/2⌋ : ℤ)|
      · simp only [if_pos hhi]
        constructor
        · intro hc
          exact absurd hc (by decide)
        · intro hc
          exact absurd hhi (not_lt.mpr hc)
      · simp only [if_neg hhi]
        constructor
        · intro hc
          exact not_lt.mp hhi
        · intro hc
          trivial

/-- Witness for C9: a user overall score of 90 against the benchmark 75 is
a rounded +20% difference, which emits an insight. -/
theorem benchmark_insight_thresholds_witness :
    ("overallScore" ∈ benchmarkKeys ∧
      10 < |(⌊(userMetricVal ⟨90, 78, 72, 70, 8, 76⟩ "overallScore" -
        industryBenchmarkVal "overallScore") /
        industryBenchmarkVal "overallScore" * 100 + 1/2⌋ : ℤ)|) ∧
    (∃ ins ∈ generateBenchmarkInsights ⟨90, 78, 72, 70, 8, 76⟩,
      ins.metric = "overallScore") := by
  have h20 : (⌊(userMetricVal ⟨90, 78, 72, 70, 8, 76⟩ "overallScore" -
      industryBenchmarkVal "overallScore") /
      industryBenchmarkVal "overallScore" * 100 + 1/2⌋ : ℤ) = 20 := by
    norm_num [userMetricVal, industryBenchmarkVal, Int.floor_eq_iff]
  have h : "overallScore" ∈ benchmarkKeys ∧
      10 < |(⌊(userMetricVal ⟨90, 78, 72, 70, 8, 76⟩ "overallScore" -
        industryBenchmarkVal "overallScore") /
        industryBenchmarkVal "overallScore" * 100 + 1/2⌋ : ℤ)| := by
    rw [h20]
    exact ⟨by decide, by decide⟩
  exact ⟨h, (benchmark_insight_thresholds ⟨90, 78, 72, 70, 8, 76⟩
    "overallScore").1.mpr h⟩

/-! ## Skill averages over positive scores (C10) -/

/-- Claim C10: `calculateSkillAverage` ignores records whose extracted score is
not strictly positive (they change neither the sum nor the divisor),
returns 0 when no positive score remains, and otherwise returns the
rounded mean of the positive scores only. -/
theorem skill_average_positive_only (skillType : String)
    (ivs : List Interview) :
    (calculateSkillAverage (ivs.filter
        (fun i => decide (0 < skillScoreQ skillType i))) skillType =
      calculateSkillAverage ivs skillType) ∧
    ((∀ i ∈ ivs, skillScoreQ skillType i ≤ 0) →
      calculateSkillAverage ivs skillType = 0) ∧
    ((ivs.map (skillScoreQ skillType)).filter
        (fun s => decide (0 < s)) ≠ [] →
      calculateSkillAverage ivs skillType =
        ((⌊((ivs.map (skillScoreQ skillType)).filter
            (fun s => decide (0 < s))).sum /
          (((ivs.map (skillScoreQ skillType)).filter
            (fun s => decide (0 < s))).length : ℚ) + 1/2⌋ : ℤ) : ℚ)) := by
  have hswap : (ivs.filter
      (fun i => decide (0 < skillScoreQ skillType i))).map
      (skillScoreQ skillType) =
      (ivs.map (skillScoreQ skillType)).filter (fun s => decide (0 < s)) := by
    rw [List.filter_map]
    rfl
  refine ⟨?_, ?_, ?_⟩
  · simp only [calculateSkillAverage, hswap, List.filter_filter,
      Bool.and_self]
  · intro hall
    have hnil : (ivs.map (skillScoreQ skillType)).filter
        (fun s => decide (0 < s)) = [] := by
      rw [List.filter_eq_nil_iff]
      intro a ha
      rw [List.mem_map] at ha
      obtain ⟨i, hi, rfl⟩ := ha
      simp only [decide_eq_true_eq]
      exact not_lt.mpr (hall i hi)
    simp [calculateSkillAverage, hnil]
  · intro hne
    have hpos : 0 < ((ivs.map (skillScoreQ skillType)).filter
        (fun s => decide (0 < s))).length := List.length_pos.mpr hne
    simp only [calculateSkillAverage, if_pos hpos]

/-- Witness for C10: one record with confidence 0.8 (score 80) and one
record without analysis (score 0) average to 80, not 40. -/
theorem skill_average_positive_only_witness :
    ((([fullInterview 70 0 (4/5), ⟨none, 0⟩] : List Interview).map
      (skillScoreQ "confidence")).filter (fun s => decide (0 < s)) ≠ []) ∧
    calculateSkillAverage
      [fullInterview 70 0 (4/5), ⟨none, 0⟩] "confidence" = 80 := by
  have e1 : skillScoreQ "confidence" (fullInterview 70 0 (4/5)) =
      4/5 * 100 := by
    simp [skillScoreQ, fullInterview]
  have e2 : skillScoreQ "confidence" (⟨none, 0⟩ : Interview) = 0 := rfl
  have hmapval : ([fullInterview 70 0 (4/5), ⟨none, 0⟩] :
      List Interview).map (skillScoreQ "confidence") = [4/5 * 100, 0] := by
    rw [List.map_cons, List.map_cons, List.map_nil, e1, e2]
  have hfil : (([fullInterview 70 0 (4/5), ⟨none, 0⟩] :
      List Interview).map (skillScoreQ "confidence")).filter
      (fun s => decide (0 < s)) = [4/5 * 100] := by
    rw [hmapval]
    norm_num [List.filter]
  have hne : ((([fullInterview 70 0 (4/5), ⟨none, 0⟩] :
      List Interview).map (skillScoreQ "confidence")).filter
      (fun s => decide (0 < s)) ≠ []) := by
    rw [hfil]
    exact List.cons_ne_nil _ _
  refine ⟨hne, ((skill_average_positive_only "confidence" _).2.2 hne).trans ?_⟩
  rw [hfil]
  norm_num [Int.floor_eq_iff]
